import Mathlib

/-!
# Verification of the `getrelease` asset-resolution and install-lifecycle engine

Shallow embedding of `getrelease.py`.  Pure string manipulation is modelled
on `List Char` with structural recursion so that every definition evaluates
by kernel reduction.  Network access (`urllib`, `pandas.read_csv` of a
checksum file) is modelled by explicit function parameters, and the
filesystem by explicit state records.
-/

set_option autoImplicit false

/-! ## Character and string utilities

The source relies on Python `str` / `pandas.Series.str` operations and a few
fixed regular expressions.  Every regular expression used by the checksum
resolver consists only of literal characters, the wildcard `.`, alternation
`|` and the end anchor `$`, so an anchored wildcard matcher over `List Char`
is a complete model of them.
-/

/-- ASCII lower-casing of one character (models Python `str.lower` and
`re.IGNORECASE` on the ASCII file names involved). -/
def lowerChar (c : Char) : Char :=
  if 'A' ≤ c ∧ c ≤ 'Z' then Char.ofNat (c.toNat + 32) else c

/-- Lower-case a string into its character list. -/
def lowerChars (s : String) : List Char := s.data.map lowerChar

/-- Plain literal prefix test on character lists. -/
def listStartMatch : List Char → List Char → Bool
  | [], _ => true
  | _ :: _, [] => false
  | a :: as, b :: bs => a == b && listStartMatch as bs

/-- Python `s.endswith(sfx)` on strings (Python `str.endswith`, case sensitive). -/
def strEndsWith (s sfx : String) : Bool :=
  listStartMatch sfx.data.reverse s.data.reverse

/-- One pattern character against one subject character: `.` is the regex
wildcard, anything else is a literal. -/
def wildCharMatch (p c : Char) : Bool := p == '.' || p == c

/-- Does the (fixed-length) wildcard pattern match the front of `s`? -/
def wildStartMatch : List Char → List Char → Bool
  | [], _ => true
  | _ :: _, [] => false
  | p :: ps, c :: cs => wildCharMatch p c && wildStartMatch ps cs

/-- Model of `re.search` with an end anchor: for a fixed-length wildcard pattern: the
pattern must match the last `pat.length` characters of `s`. -/
def wildEndMatch (pat s : List Char) : Bool :=
  wildStartMatch pat.reverse s.reverse

/-- Model of `re.search(pat, s)` for a wildcard pattern: match at any position. -/
def wildSearch (pat : List Char) : List Char → Bool
  | [] => wildStartMatch pat []
  | c :: cs => wildStartMatch pat (c :: cs) || wildSearch pat cs

/-- Split a character list on `'/'` (Python `str.split('/')`). -/
def splitSlash : List Char → List (List Char)
  | [] => [[]]
  | c :: rest =>
    match splitSlash rest with
    | [] => [[]]
    | seg :: segs => if c = '/' then [] :: seg :: segs else (c :: seg) :: segs

/-- Python `url.split('/')[-1]`, the file name component of a download URL. -/
def lastSegment (url : String) : String :=
  match (splitSlash url.data).getLast? with
  | some seg => String.mk seg
  | none => ""

/-! ## Checksum resolver and verifier (`class Checksum`)

`fetch` models `pandas.read_csv(url, sep='\s+', names=['checksum',
'filename'])`: it returns the whitespace-separated `(checksum, filename)`
rows of the file served at a URL.  `hash` models
`hashlib.sha256(...).hexdigest()` over the downloaded bytes (bytes are
`List Nat`).  A pandas `Series.item()` call on a selection that does not
have exactly one element raises `ValueError`; those raises are the
`.error` results below. -/

namespace Checksum

/-- The filter `asset_urls.str.contains('checksums.txt$|sha256.txt$|sha256sum.txt$', flags=re.IGNORECASE)`
used by `Checksum.fromFile`. -/
def manifestNameMatch (u : String) : Bool :=
  wildEndMatch "checksums.txt".data (lowerChars u) ||
  wildEndMatch "sha256.txt".data (lowerChars u) ||
  wildEndMatch "sha256sum.txt".data (lowerChars u)

/-- The filter `asset_urls.str.contains('sha256$|sha256sum$|sum$', flags=re.IGNORECASE)`
used by `Checksum.fromFiles`. -/
def sidecarNameMatch (u : String) : Bool :=
  wildEndMatch "sha256".data (lowerChars u) ||
  wildEndMatch "sha256sum".data (lowerChars u) ||
  wildEndMatch "sum".data (lowerChars u)

/-- Model of `Checksum.fromFile`: parse the single aggregated manifest asset and
return the checksum of the row whose filename ends with the asset's
filename.  `.error` models the `ValueError` that `Series.item()` raises
when the selection does not have exactly one element. -/
def fromFile (fetch : String → List (String × String))
    (asset_urls : List String) (asset_filename : String) :
    Except Unit (Option String) :=
  match asset_urls.filter manifestNameMatch with
  | [] => .ok none
  | [u] =>
    match (fetch u).filter (fun row => strEndsWith row.2 asset_filename) with
    | [row] => .ok (some row.1)
    | _ => .error ()
  | _ => .error ()

/-- Model of `Checksum.fromFiles`: find the single per-asset sidecar checksum file
(name matched case-insensitively, and containing the asset's filename,
which is itself used as a regular expression) and return its single
checksum row. -/
def fromFiles (fetch : String → List (String × String))
    (asset_urls : List String) (asset_filename : String) :
    Except Unit (Option String) :=
  match asset_urls.filter sidecarNameMatch with
  | [] => .ok none
  | f :: fs =>
    match (f :: fs).filter (fun u => wildSearch asset_filename.data u.data) with
    | [u] =>
      match fetch u with
      | [row] => .ok (some row.1)
      | _ => .error ()
    | _ => .error ()

/-- Python truthiness of an optional string: `None` and `''` are falsy. -/
def truthy : Option String → Option String
  | some s => if s.isEmpty then none else some s
  | none => none

/-- The reference checksum chosen by `Checksum.verify`:
`checksum_from_file if checksum_from_file else checksum_from_files if checksum_from_files else None`,
with both strategies evaluated first (an exception in either propagates). -/
def referenceChecksum (fetch : String → List (String × String))
    (asset_urls : List String) (asset_filename : String) :
    Except Unit (Option String) := do
  let c1 ← fromFile fetch asset_urls asset_filename
  let c2 ← fromFiles fetch asset_urls asset_filename
  pure (match truthy c1 with
        | some d => some d
        | none => truthy c2)

/-- Model of `Checksum.verify`: skip when there are no candidate asset URLs or no
reference checksum resolves; otherwise compare the SHA-256 hex digest of
the downloaded bytes against the reference (case-sensitive) and raise on
mismatch. -/
def verify (fetch : String → List (String × String)) (hash : List Nat → String)
    (asset_urls : List String) (asset_filename : String)
    (fileBytes : List Nat) : Except Unit Unit :=
  if asset_urls.isEmpty then .ok ()
  else
    match referenceChecksum fetch asset_urls asset_filename with
    | .error e => .error e
    | .ok none => .ok ()
    | .ok (some ref) => if ref = hash fileBytes then .ok () else .error ()

end Checksum

/-! ## Asset candidate scorer (`Asset.identify`)

`OS_PATTERN` and `ARCH_PATTERN` are fixed alternation regexes tested with
`Series.str.contains(..., case=False)`, and the user's `asset_pattern` is an
arbitrary regex; the scoring logic is independent of how those matches are
decided, so the three are abstracted as Boolean predicates `osM`, `archM`
and `userM` on the candidate URL. -/

/-- The test `asset_urls.str.endswith(('.deb', '.rpm', '.sha1', '.sha256', '.sha256sum', '.sum'))`:
the blacklisted package-manager / checksum suffixes. -/
def blacklisted (u : String) : Bool :=
  strEndsWith u ".deb" || strEndsWith u ".rpm" || strEndsWith u ".sha1" ||
  strEndsWith u ".sha256" || strEndsWith u ".sha256sum" || strEndsWith u ".sum"

/-- The raw OS/arch match count of a candidate (the `os + arch` part of the
score). -/
def rawMatchCount (osM archM : String → Bool) (u : String) : Int :=
  (if osM u then 1 else 0) + (if archM u then 1 else 0)

/-- Per-candidate score `os + arch - filetype_veto + 2*asset_pattern`. -/
def assetScore (osM archM userM : String → Bool) (u : String) : Int :=
  (if osM u then 1 else 0) + (if archM u then 1 else 0)
    - (if blacklisted u then 1 else 0) + 2 * (if userM u then 1 else 0)

/-- Model of `match.max()`: the running maximum of the scores, seeded with the first
candidate's score. -/
def foldMax (sc : String → Int) (a : Int) (l : List String) : Int :=
  l.foldl (fun x v => max x (sc v)) a

namespace Asset

/-- Model of `Asset.identify`: score every candidate, keep the candidates attaining
the maximal score, and return the single survivor.  When zero or several
candidates survive the source re-prompts the operator for a refined
`asset_pattern`; that interactive path is modelled as `none`. -/
def identify (osM archM userM : String → Bool) (urls : List String) :
    Option String :=
  match urls with
  | [] => none
  | u :: us =>
    let sc := assetScore osM archM userM
    let m := foldMax sc (sc u) us
    let winners := (u :: us).filter (fun v => sc v == m)
    if winners.length = 1 then winners.head? else none

end Asset

/-! ## Archive extractor naming (`Asset.extract`)

`Asset.extract` returns the path (under the destination data directory)
where the artifact ends up: `destination/file_path.stem` for a standalone
file, `destination/base_dir` for an archive whose entries share a common
path prefix, and `destination/file_path.stem.rstrip('.tar')` for a flat
archive.  The model computes that final path component. -/

/-- Split a reversed character list at the first `'.'`: returns the
(reversed) suffix after the last dot and the (reversed) part before it. -/
def takeAfterLastDot : List Char → Option (List Char × List Char)
  | [] => none
  | c :: cs =>
    if c = '.' then some ([], cs)
    else
      match takeAfterLastDot cs with
      | some (sfx, stm) => some (c :: sfx, stm)
      | none => none

/-- Python `pathlib.PurePath.stem`: the file name with its last suffix
removed, where a suffix requires a dot that is neither the first nor the
last character. -/
def pyStem (name : String) : String :=
  match takeAfterLastDot name.data.reverse with
  | some (revSfx, revStm) =>
    if revSfx.isEmpty || revStm.isEmpty then name else String.mk revStm.reverse
  | none => name

/-- Python `str.rstrip(chars)`: remove trailing characters belonging to the
character set (not the literal suffix). -/
def rstripChars (cset : List Char) (s : String) : String :=
  String.mk ((s.data.reverse.dropWhile (fun c => cset.contains c)).reverse)

/-- Longest common prefix of two segment lists. -/
def commonSegs : List String → List String → List String
  | a :: as, b :: bs => if a = b then a :: commonSegs as bs else []
  | _, _ => []

/-- The `/`-separated components of a relative path, with empty and `.`
components dropped (as `os.path.commonpath` does). -/
def pathSegs (p : String) : List String :=
  ((splitSlash p.data).map (fun cs => String.mk cs)).filter
    (fun s => !(s == "") && !(s == "."))

/-- Join path segments back with `/`. -/
def joinSlash : List String → String
  | [] => ""
  | [s] => s
  | s :: rest => s ++ "/" ++ joinSlash rest

/-- Model of `os.path.commonpath` on the archive entry names. -/
def commonpath (paths : List String) : String :=
  match paths.map pathSegs with
  | [] => ""
  | p :: ps => joinSlash (ps.foldl commonSegs p)

namespace Asset

/-- The final path component produced by `Asset.extract`: `isTar` is the
`tarfile.is_tarfile` classification and `entries` the archive's
`tar.getnames()`. -/
def extract (isTar : Bool) (entries : List String) (filename : String) :
    String :=
  if !isTar then pyStem filename
  else
    if commonpath entries = "" then rstripChars ['.', 't', 'a', 'r'] (pyStem filename)
    else commonpath entries

end Asset

/-- Modelled from the spec: the spec's naming rule "the filename with any
trailing `.tar` token stripped and no other part of the name altered", kept
separate so the source's behaviour can be compared against it. -/
def specStripTar (name : String) : String :=
  if strEndsWith name ".tar" then String.mk (name.data.take (name.data.length - 4))
  else name

/-! ## Symlink materializer (`Executables.link`) -/

/-- What currently sits at the symlink destination path. -/
inductive DestEntry where
  | file : DestEntry
  | symlinkTo : String → DestEntry
deriving DecidableEq

/-- The slice of filesystem state that `Executables.link` touches: whether
`target.is_file()` holds, and the entry (if any) at the destination path. -/
structure LinkState where
  targetIsFile : Bool
  dest : Option DestEntry
deriving DecidableEq

namespace Executables

/-- Model of `Executables.link`: when the target is a regular file, unlink whatever
is at the destination and create a fresh symlink to the target; otherwise
do nothing at all. -/
def link (st : LinkState) (target : String) : LinkState :=
  if st.targetIsFile then { st with dest := some (DestEntry.symlinkTo target) }
  else st

end Executables

/-! ## Installation lifecycle (`install`, `upgrade`, `uninstall`, `upgradeAll`)

Timestamps are modelled as `Option Int`: `some t` is a valid
`pandas.Timestamp`, `none` is `NaT` (what `pandas.Timestamp(None)` yields
for a JSON `null`).  A tag-info dictionary field is `Option (Option Int)`:
the outer layer is key presence (`dict.get` falls through to its default
only when the key is absent), the inner layer is a null versus a real
timestamp. -/

/-- The tag-info dictionary fields that the upgrade logic reads. -/
structure TagInfo where
  published_at : Option (Option Int) := none
  released_at : Option (Option Int) := none
deriving DecidableEq

/-- The persisted metadata record for one repository identity: the `tag`
dictionary and the stored `meta.tag` invocation parameter. -/
structure MetaRec where
  tagInfo : TagInfo
  metaTag : Option String
deriving DecidableEq

/-- Filesystem state for one repository identity: the cached download, the
extracted trees under the data directory, the published symlinks, and the
metadata record. -/
structure FS where
  cache : Option (List Nat)
  trees : List String
  links : List String
  record : Option MetaRec
deriving DecidableEq

/-- Model of `tag_info.get('published_at', tag_info.get('released_at', '1970-01-01T00:00:00Z'))`:
the installed record's publish timestamp with its fallback chain. -/
def installedTagDate (t : TagInfo) : Option Int :=
  match t.published_at with
  | some v => v
  | none =>
    match t.released_at with
    | some v => v
    | none => some 0

/-- Model of `latest_tag.get('published_at', latest_tag.get('released_at'))`: the
latest tag's publish timestamp (no epoch fallback; a fully absent value is
`NaT`). -/
def latestTagDate (t : TagInfo) : Option Int :=
  match t.published_at with
  | some v => v
  | none =>
    match t.released_at with
    | some v => v
    | none => none

/-- The `pandas` comparison `>=` on possibly-`NaT` timestamps: any comparison involving
`NaT` is false. -/
def dateGE : Option Int → Option Int → Bool
  | some a, some b => decide (b ≤ a)
  | _, _ => false

/-- Model of the lookup `metadata.get` of the `tag` entry: the stored tag-info of a possibly absent
record. -/
def recTagInfo : Option MetaRec → TagInfo
  | none => {}
  | some r => r.tagInfo

/-- Model of `uninstall`: absent metadata is a no-op warning; otherwise (once the
operator proceeds) every symlink, the cached asset, the extracted tree and
the metadata record are removed. -/
def uninstallRun (pre : FS) (proceed : Bool) : FS :=
  match pre.record with
  | none => pre
  | some _ =>
    if proceed then { cache := none, trees := [], links := [], record := none }
    else pre

/-- The part of `install` from asset resolution onward.  `resolved` is the
chosen download URL (`none` when resolution failed or no assets exist),
`remote` maps a URL to the downloaded bytes, `confirmed` is the operator's
go-ahead, `extractOk` stands for extraction/discovery raising no exception,
and `newRec` is the metadata record written by the final `Meta().write`.
The `Bool` result is `true` when the operation ran to completion. -/
def installRun (pre : FS) (asset_urls : List String) (resolved : Option String)
    (fetch : String → List (String × String)) (hash : List Nat → String)
    (remote : String → List Nat) (confirmed : Bool) (downloadOnly : Bool)
    (extractName : String) (extractOk : Bool) (newRec : MetaRec) : FS × Bool :=
  match resolved with
  | none => (pre, false)
  | some url =>
    if !confirmed then (pre, false)
    else
      let bytes := remote url
      let st1 : FS := { pre with cache := some bytes }
      match Checksum.verify fetch hash asset_urls (lastSegment url) bytes with
      | .error _ => (st1, false)
      | .ok _ =>
        if downloadOnly then (st1, true)
        else if !extractOk then (st1, false)
        else
          ({ st1 with trees := extractName :: st1.trees,
                      links := extractName :: st1.links,
                      record := some newRec }, true)

/-- Model of `upgrade`: read the record, compare its publish timestamp against the
latest tag's, stop when up to date (or when the latest tag cannot be
fetched, or the operator declines switching a non-`latest` track), and
otherwise run `uninstall` followed by `install` with the stored
parameters. -/
def upgradeRun (pre : FS) (latest : Option TagInfo) (trackYes : Bool)
    (uninstallProceed : Bool) (asset_urls : List String)
    (resolved : Option String) (fetch : String → List (String × String))
    (hash : List Nat → String) (remote : String → List Nat)
    (confirmed : Bool) (downloadOnly : Bool) (extractName : String)
    (extractOk : Bool) (newRec : MetaRec) : FS × Bool :=
  match latest with
  | none => (pre, true)
  | some lt =>
    if dateGE (installedTagDate (recTagInfo pre.record)) (latestTagDate lt) then
      (pre, true)
    else
      let kwargTag := match pre.record with
                      | some r => r.metaTag
                      | none => none
      if kwargTag != some "latest" && !trackYes then (pre, true)
      else
        installRun (uninstallRun pre uninstallProceed) asset_urls resolved
          fetch hash remote confirmed downloadOnly extractName extractOk newRec

/-- The `meta` slice of one persisted record as read by `upgradeAll`. -/
structure BatchMeta where
  repo_id : String
  url : Option String
deriving DecidableEq

/-- Model of `upgradeAll`: the list comprehension
`[upgrade(repo_id=repo.get('repo_id')) for repo in metadata if not repo.get('url')]`.
`step` is `upgrade` (`false` = it raised).  The result collects, in order,
the repo ids on which `upgrade` was invoked, and whether the comprehension
finished without an exception. -/
def upgradeAllRun (step : String → Bool) : List BatchMeta → List String × Bool
  | [] => ([], true)
  | m :: rest =>
    if m.url.isSome then upgradeAllRun step rest
    else if step m.repo_id then
      (m.repo_id :: (upgradeAllRun step rest).1, (upgradeAllRun step rest).2)
    else ([m.repo_id], false)

/-! ## Concrete instances used by counterexamples and witnesses -/

/-- The linux OS pattern instantiated as a plain substring test. -/
def osMatchCex (s : String) : Bool := wildSearch "linux".data s.data

/-- The amd64 arch pattern instantiated as a plain substring test. -/
def archMatchCex (s : String) : Bool := wildSearch "amd64".data s.data

/-- A checksum-file fetch whose single row names a file other than the
asset under verification (or, for the asset `tool`, exactly it). -/
def fetchCex : String → List (String × String) := fun _ => [("abc", "tool")]

/-- A digest function disagreeing with the reference checksum `abc`. -/
def hashCex : List Nat → String := fun _ => "bad"

/-- Downloaded bytes for any URL. -/
def remoteCex : String → List Nat := fun _ => [7]

/-- A release with an aggregated checksum manifest and one real asset. -/
def urlsCex : List String := ["https://h/checksums.txt", "https://h/tool"]

/-- A previously-installed metadata record tracking `latest`, published at
time 5. -/
def recCex : MetaRec :=
  { tagInfo := { published_at := some (some 5), released_at := none },
    metaTag := some "latest" }

/-- Filesystem state left behind by that previous successful install. -/
def preCex : FS :=
  { cache := some [1], trees := ["old"], links := ["lnk"], record := some recCex }

/-- The latest release tag, published at time 10. -/
def latestCex : TagInfo := { published_at := some (some 10), released_at := none }

/-- The record an upgrade to `latestCex` would write. -/
def newRecCex : MetaRec := { tagInfo := latestCex, metaTag := some "latest" }

/-! ## Theorems -/

/-- C10: `Checksum.verify` on an empty candidate asset-URL series returns
immediately for every file content and every digest function (so nothing is
read or hashed and no error can be raised), and an install that reaches the
verification step with no listed assets runs to completion. -/
theorem verify_empty_assets_skips (fetch : String → List (String × String))
    (hash : List Nat → String) (fname : String) (bytes : List Nat) :
    Checksum.verify fetch hash [] fname bytes = .ok () ∧
    ∀ (pre : FS) (u : String) (remote : String → List Nat)
      (extractName : String) (newRec : MetaRec),
      (installRun pre [] (some u) fetch hash remote true false extractName true
        newRec).2 = true := by
  exact ⟨rfl, fun pre u remote extractName newRec => rfl⟩

/-- C8 counterexample: an aggregated manifest asset is present
(`checksums.txt`) but contains no row whose filename ends with the resolved
asset's filename `tool.tar.gz`; `Checksum.fromFile` raises (pandas
`Series.item()` on an empty selection) and `Checksum.verify` propagates the
error instead of treating verification as skipped. -/
theorem manifest_without_matching_row_cex :
    Checksum.fromFile fetchCex ["https://h/checksums.txt"] "tool.tar.gz"
      = .error () ∧
    Checksum.verify fetchCex hashCex ["https://h/checksums.txt"] "tool.tar.gz"
      [0] = .error () :=
  ⟨rfl, rfl⟩

/-- C8, amended: when no candidate asset URL matches the aggregated-manifest
name patterns and none matches the per-asset sidecar name patterns, neither
strategy yields a reference digest and `Checksum.verify` returns without
raising; a matching manifest with no matching row instead raises. -/
theorem verify_skips_without_candidates (fetch : String → List (String × String))
    (hash : List Nat → String) (urls : List String) (fname : String)
    (bytes : List Nat)
    (h1 : urls.filter Checksum.manifestNameMatch = [])
    (h2 : urls.filter Checksum.sidecarNameMatch = []) :
    Checksum.verify fetch hash urls fname bytes = .ok () := by
  have hf : Checksum.fromFile fetch urls fname = .ok none := by
    unfold Checksum.fromFile
    rw [h1]
  have hff : Checksum.fromFiles fetch urls fname = .ok none := by
    unfold Checksum.fromFiles
    rw [h2]
  have hr : Checksum.referenceChecksum fetch urls fname = .ok none := by
    unfold Checksum.referenceChecksum
    rw [hf, hff]
    rfl
  unfold Checksum.verify
  rw [hr]
  by_cases he : urls.isEmpty <;> simp [he]

/-- Closed witness for the amended C8 statement. -/
theorem verify_skips_without_candidates_witness :
    (["https://h/tool"] : List String).filter Checksum.manifestNameMatch = [] ∧
    (["https://h/tool"] : List String).filter Checksum.sidecarNameMatch = [] ∧
    Checksum.verify fetchCex hashCex ["https://h/tool"] "tool" [0] = .ok () :=
  ⟨rfl, rfl,
    verify_skips_without_candidates fetchCex hashCex ["https://h/tool"] "tool"
      [0] rfl rfl⟩

/-- C7 counterexample: the target is missing and a stale regular file sits
at the destination; `Executables.link` leaves the stale entry in place, so
the destination does not end up empty as the claim requires. -/
theorem link_missing_target_cex :
    (Executables.link { targetIsFile := false, dest := some DestEntry.file }
      "target").dest = some DestEntry.file ∧
    some DestEntry.file ≠ (none : Option DestEntry) :=
  ⟨rfl, by decide⟩

/-- C7, amended: a symlink is created only when the target is a regular
file, in which case any pre-existing destination entry is replaced by a
fresh link to the target; when the target is missing the call is a complete
no-op (any stale destination entry remains), and consequently every link
this call creates points to an existing target. -/
theorem link_replace_semantics (st : LinkState) (t : String) :
    (st.targetIsFile = true →
      Executables.link st t
        = { st with dest := some (DestEntry.symlinkTo t) }) ∧
    (st.targetIsFile = false → Executables.link st t = st) ∧
    (∀ t', (Executables.link st t).dest = some (DestEntry.symlinkTo t') →
      (Executables.link st t).dest ≠ st.dest → st.targetIsFile = true) := by
  refine ⟨fun h => ?_, fun h => ?_, fun t' _ hne => ?_⟩
  · simp [Executables.link, h]
  · simp [Executables.link, h]
  · by_contra hfalse
    have h0 : st.targetIsFile = false := by
      revert hfalse; cases st.targetIsFile <;> simp
    exact hne (by simp [Executables.link, h0])

/-- Closed witness for the amended C7 statement. -/
theorem link_replace_semantics_witness :
    ({ targetIsFile := true, dest := some DestEntry.file } : LinkState).targetIsFile
      = true ∧
    Executables.link { targetIsFile := true, dest := some DestEntry.file } "t"
      = { targetIsFile := true, dest := some (DestEntry.symlinkTo "t") } :=
  ⟨rfl,
    (link_replace_semantics { targetIsFile := true, dest := some DestEntry.file }
      "t").1 rfl⟩

/-- C5: when the installed record's publish timestamp (with the
`published_at` → `released_at` → epoch-zero fallback chain) compares greater
than or equal to the latest tag's publish timestamp, `upgrade` returns after
the up-to-date report with the filesystem state exactly unchanged. -/
theorem upgrade_uptodate_noop (pre : FS) (lt : TagInfo)
    (trackYes uninstallProceed : Bool) (asset_urls : List String)
    (resolved : Option String) (fetch : String → List (String × String))
    (hash : List Nat → String) (remote : String → List Nat)
    (confirmed downloadOnly : Bool) (extractName : String) (extractOk : Bool)
    (newRec : MetaRec)
    (h : dateGE (installedTagDate (recTagInfo pre.record)) (latestTagDate lt)
      = true) :
    upgradeRun pre (some lt) trackYes uninstallProceed asset_urls resolved
      fetch hash remote confirmed downloadOnly extractName extractOk newRec
      = (pre, true) ∧
    installedTagDate {} = some 0 ∧
    (∀ (v : Option Int) (r : Option (Option Int)),
      installedTagDate { published_at := some v, released_at := r } = v) ∧
    (∀ v : Option Int,
      installedTagDate { published_at := none, released_at := some v } = v) := by
  refine ⟨?_, rfl, fun v r => rfl, fun v => rfl⟩
  simp [upgradeRun, h]

/-- Closed witness for C5. -/
theorem upgrade_uptodate_noop_witness :
    dateGE (installedTagDate (recTagInfo preCex.record))
      (latestTagDate { published_at := some (some 3), released_at := none })
      = true ∧
    upgradeRun preCex (some { published_at := some (some 3), released_at := none })
      true true urlsCex (some "https://h/tool") fetchCex hashCex remoteCex true
      false "tool" true newRecCex = (preCex, true) :=
  ⟨by decide,
    (upgrade_uptodate_noop preCex
      { published_at := some (some 3), released_at := none } true true urlsCex
      (some "https://h/tool") fetchCex hashCex remoteCex true false "tool" true
      newRecCex (by decide)).1⟩

/-- C9 counterexample: two tracked records, neither installed from a raw
URL; upgrading the first raises, and the second is never processed — the
failure is not isolated. -/
theorem upgradeAll_failure_not_isolated_cex :
    upgradeAllRun (fun id => id != "a/a")
      [{ repo_id := "a/a", url := none }, { repo_id := "b/b", url := none }]
      = (["a/a"], false) ∧
    "b/b" ∉ (upgradeAllRun (fun id => id != "a/a")
      [{ repo_id := "a/a", url := none }, { repo_id := "b/b", url := none }]).1 := by
  refine ⟨rfl, by decide⟩

/-- C9, amended: batch upgrade walks the persisted records strictly
sequentially and invokes `upgrade` exactly on those not installed from a raw
URL, provided no invocation raises; an exception raised by one record's
upgrade aborts the comprehension and the remaining records are not
processed. -/
theorem upgradeAll_processes_all_ok (step : String → Bool)
    (metas : List BatchMeta)
    (h : ∀ m ∈ metas, m.url = none → step m.repo_id = true) :
    upgradeAllRun step metas
      = ((metas.filter (fun m => m.url.isNone)).map (fun m => m.repo_id),
         true) := by
  induction metas with
  | nil => rfl
  | cons m rest ih =>
    have hrest : ∀ x ∈ rest, x.url = none → step x.repo_id = true :=
      fun x hx => h x (List.mem_cons_of_mem _ hx)
    cases hu : m.url with
    | some v => simp [upgradeAllRun, hu, ih hrest]
    | none =>
      have hs := h m (List.mem_cons_self _ _) hu
      simp [upgradeAllRun, hu, hs, ih hrest]

/-- Closed witness for the amended C9 statement. -/
theorem upgradeAll_processes_all_ok_witness :
    upgradeAllRun (fun _ => true)
      [{ repo_id := "a/a", url := none }, { repo_id := "u/u", url := some "x" },
       { repo_id := "b/b", url := none }]
      = (["a/a", "b/b"], true) :=
  upgradeAll_processes_all_ok (fun _ => true)
    [{ repo_id := "a/a", url := none }, { repo_id := "u/u", url := some "x" },
     { repo_id := "b/b", url := none }]
    (fun _ _ _ => rfl)

/-- Reduction of `installRun` past the confirmation step. -/
theorem installRun_some (pre : FS) (asset_urls : List String) (url : String)
    (fetch : String → List (String × String)) (hash : List Nat → String)
    (remote : String → List Nat) (downloadOnly : Bool) (extractName : String)
    (extractOk : Bool) (newRec : MetaRec) :
    installRun pre asset_urls (some url) fetch hash remote true downloadOnly
      extractName extractOk newRec
      = (match Checksum.verify fetch hash asset_urls (lastSegment url)
            (remote url) with
        | .error _ => ({ pre with cache := some (remote url) }, false)
        | .ok _ =>
          if downloadOnly then ({ pre with cache := some (remote url) }, true)
          else if !extractOk then
            ({ pre with cache := some (remote url) }, false)
          else
            ({ cache := some (remote url),
               trees := extractName :: pre.trees,
               links := extractName :: pre.links,
               record := some newRec }, true)) := rfl

/-- C2: with a resolved reference digest, `Checksum.verify` succeeds exactly
when the SHA-256 hex digest of the downloaded bytes equals the reference
(case-sensitively); on a mismatch it raises, and the surrounding `install`
stops with the downloaded file in the cache, no extraction performed, no
symlinks touched and the metadata record untouched. -/
theorem verify_reference_decision (fetch : String → List (String × String))
    (hash : List Nat → String) (urls : List String) (fname : String)
    (bytes : List Nat) (d : String)
    (hne : urls ≠ [])
    (href : Checksum.referenceChecksum fetch urls fname = .ok (some d)) :
    (hash bytes = d → Checksum.verify fetch hash urls fname bytes = .ok ()) ∧
    (hash bytes ≠ d →
      Checksum.verify fetch hash urls fname bytes = .error () ∧
      ∀ (pre : FS) (remote : String → List Nat) (u : String)
        (downloadOnly : Bool) (extractName : String) (extractOk : Bool)
        (newRec : MetaRec),
        lastSegment u = fname → remote u = bytes →
        installRun pre urls (some u) fetch hash remote true downloadOnly
          extractName extractOk newRec
          = ({ pre with cache := some bytes }, false)) := by
  have hemp : urls.isEmpty = false := by
    cases urls with
    | nil => exact absurd rfl hne
    | cons a l => rfl
  constructor
  · intro hd
    unfold Checksum.verify
    rw [hemp, href]
    simp [hd]
  · intro hd
    have hv : Checksum.verify fetch hash urls fname bytes = .error () := by
      unfold Checksum.verify
      rw [hemp, href]
      simp only [Bool.false_eq_true, if_false]
      rw [if_neg (fun hh => hd hh.symm)]
    refine ⟨hv, ?_⟩
    intro pre remote u downloadOnly extractName extractOk newRec hlast hrem
    rw [installRun_some, hrem, hlast, hv]

/-- Closed witness for C2: the reference digest `abc` resolves from the
manifest, the downloaded file hashes to `bad`, and the failed install leaves
only the cached download behind. -/
theorem verify_reference_decision_witness :
    urlsCex ≠ [] ∧
    Checksum.referenceChecksum fetchCex urlsCex "tool" = .ok (some "abc") ∧
    hashCex [7] ≠ "abc" ∧
    Checksum.verify fetchCex hashCex urlsCex "tool" [7] = .error () ∧
    installRun preCex urlsCex (some "https://h/tool") fetchCex hashCex
      remoteCex true false "tool" true newRecCex
      = ({ preCex with cache := some [7] }, false) := by
  refine ⟨by decide, rfl, by decide, ?_, ?_⟩
  · exact ((verify_reference_decision fetchCex hashCex urlsCex "tool" [7] "abc"
      (by decide) rfl).2 (by decide)).1
  · exact ((verify_reference_decision fetchCex hashCex urlsCex "tool" [7] "abc"
      (by decide) rfl).2 (by decide)).2 preCex remoteCex "https://h/tool" false
      "tool" true newRecCex rfl rfl

/-- C4 counterexample: a record written by a previous successful install
(`recCex`, published at 5) is upgraded towards a newer latest tag
(published at 10); `upgrade` first uninstalls — deleting the record — and
the subsequent install fails at checksum verification, so after the failed
upgrade the on-disk record is gone rather than equal to its previous
value. -/
theorem upgrade_failure_deletes_record_cex :
    preCex.record = some recCex ∧
    (upgradeRun preCex (some latestCex) true true urlsCex
      (some "https://h/tool") fetchCex hashCex remoteCex true false "tool"
      true newRecCex).2 = false ∧
    (upgradeRun preCex (some latestCex) true true urlsCex
      (some "https://h/tool") fetchCex hashCex remoteCex true false "tool"
      true newRecCex).1.record = none :=
  ⟨rfl, rfl, rfl⟩

/-- C4, amended: a failure anywhere during `install` aborts the operation
before `Meta().write` runs, leaving the previously-written metadata record
exactly as it was; `upgrade`, however, removes the previous record via its
uninstall step before reinstalling, so a failure during the reinstall
leaves no record (failures before the uninstall step still leave it
untouched). -/
theorem install_failure_preserves_record (pre : FS) (asset_urls : List String)
    (resolved : Option String) (fetch : String → List (String × String))
    (hash : List Nat → String) (remote : String → List Nat)
    (confirmed downloadOnly : Bool) (extractName : String) (extractOk : Bool)
    (newRec : MetaRec)
    (h : (installRun pre asset_urls resolved fetch hash remote confirmed
      downloadOnly extractName extractOk newRec).2 = false) :
    (installRun pre asset_urls resolved fetch hash remote confirmed
      downloadOnly extractName extractOk newRec).1.record = pre.record := by
  unfold installRun at h ⊢
  cases resolved with
  | none => rfl
  | some url =>
    cases confirmed with
    | false => rfl
    | true =>
      cases hv : Checksum.verify fetch hash asset_urls (lastSegment url)
          (remote url) with
      | error e => simp [hv]
      | ok v =>
        simp only [hv] at h ⊢
        cases downloadOnly with
        | true => simp at h
        | false =>
          cases extractOk with
          | false => simp
          | true => simp at h

/-- The seed is a lower bound of the running maximum. -/
theorem le_foldMax (sc : String → Int) :
    ∀ (l : List String) (a : Int), a ≤ foldMax sc a l
  | [], a => le_refl a
  | v :: vs, a => le_trans (le_max_left a (sc v)) (le_foldMax sc vs (max a (sc v)))

/-- Every listed candidate's score is bounded by the running maximum. -/
theorem mem_le_foldMax (sc : String → Int) (l : List String) :
    ∀ (a : Int) (u : String), u ∈ l → sc u ≤ foldMax sc a l := by
  induction l with
  | nil => intro a u hu; cases hu
  | cons v vs ih =>
    intro a u hu
    cases hu with
    | head => exact le_trans (le_max_right a (sc v)) (le_foldMax sc vs _)
    | tail _ hmem => exact ih _ u hmem

/-- The running maximum is the seed or some listed candidate's score. -/
theorem foldMax_attained (sc : String → Int) (l : List String) :
    ∀ a : Int, foldMax sc a l = a ∨ ∃ u ∈ l, foldMax sc a l = sc u := by
  induction l with
  | nil => intro a; exact Or.inl rfl
  | cons v vs ih =>
    intro a
    have hstep : foldMax sc a (v :: vs) = foldMax sc (max a (sc v)) vs := rfl
    rcases ih (max a (sc v)) with h | ⟨u, hu, he⟩
    · rcases max_choice a (sc v) with hm | hm
      · exact Or.inl (by rw [hstep, h, hm])
      · exact Or.inr ⟨v, List.mem_cons_self _ _, by rw [hstep, h, hm]⟩
    · exact Or.inr ⟨u, List.mem_cons_of_mem _ hu, by rw [hstep]; exact he⟩

/-- A filter whose predicate holds exactly at an element occurring once
returns that element alone. -/
theorem filter_eq_singleton_of_unique (p : String → Bool) :
    ∀ (l : List String) (w : String), l.count w = 1 →
      (∀ u ∈ l, (p u = true ↔ u = w)) → l.filter p = [w] := by
  intro l
  induction l with
  | nil => intro w hc _; simp at hc
  | cons u us ih =>
    intro w hc hiff
    by_cases he : u = w
    · subst he
      have hpu : p u = true := (hiff u (List.mem_cons_self _ _)).mpr rfl
      have hzero : us.count u = 0 := by
        have := List.count_cons_self u us
        omega
      have hnone : ∀ v ∈ us, ¬p v = true := by
        intro v hv hpv
        have hvu : v = u := (hiff v (List.mem_cons_of_mem _ hv)).mp hpv
        rw [List.count_eq_zero] at hzero
        exact hzero (hvu ▸ hv)
      rw [List.filter_cons_of_pos hpu, List.filter_eq_nil_iff.mpr hnone]
    · have hpu : ¬p u = true := fun hpv => he ((hiff u (List.mem_cons_self _ _)).mp hpv)
      rw [List.filter_cons_of_neg hpu]
      refine ih w ?_ (fun v hv => hiff v (List.mem_cons_of_mem _ hv))
      have := List.count_cons_of_ne (Ne.symm he) us
      omega

/-- C1: each candidate is scored
`os_match + arch_match - blacklisted + 2*user_pattern_match` with the
blacklist being exactly the six suffixes, and when exactly one candidate
attains the maximum score over the whole non-empty set, `Asset.identify`
returns it. -/
theorem identify_unique_max (osM archM userM : String → Bool)
    (urls : List String) (w : String) (hw : w ∈ urls)
    (hcount : urls.count w = 1)
    (hmax : ∀ v ∈ urls, v ≠ w →
      assetScore osM archM userM v < assetScore osM archM userM w) :
    Asset.identify osM archM userM urls = some w ∧
    (∀ u : String, blacklisted u = true ↔
      (strEndsWith u ".deb" = true ∨ strEndsWith u ".rpm" = true ∨
       strEndsWith u ".sha1" = true ∨ strEndsWith u ".sha256" = true ∨
       strEndsWith u ".sha256sum" = true ∨ strEndsWith u ".sum" = true)) ∧
    (∀ u : String, assetScore osM archM userM u =
      (if osM u then 1 else 0) + (if archM u then 1 else 0)
        - (if blacklisted u then 1 else 0)
        + 2 * (if userM u then 1 else 0)) := by
  refine ⟨?_, ?_, fun u => rfl⟩
  · cases urls with
    | nil => cases hw
    | cons u us =>
      have hm : foldMax (assetScore osM archM userM)
          (assetScore osM archM userM u) us = assetScore osM archM userM w := by
        have hle : assetScore osM archM userM w ≤
            foldMax (assetScore osM archM userM)
              (assetScore osM archM userM u) us := by
          cases hw with
          | head => exact le_foldMax _ us _
          | tail _ hmem => exact mem_le_foldMax _ us _ w hmem
        rcases foldMax_attained (assetScore osM archM userM) us
            (assetScore osM archM userM u) with h | ⟨v, hv, he⟩
        · by_cases huw : u = w
          · rw [h, huw]
          · have := hmax u (List.mem_cons_self _ _) huw
            omega
        · by_cases hvw : v = w
          · rw [he, hvw]
          · have := hmax v (List.mem_cons_of_mem _ hv) hvw
            rw [he] at hle
            omega
      have hfil : (u :: us).filter (fun v =>
          assetScore osM archM userM v ==
            foldMax (assetScore osM archM userM)
              (assetScore osM archM userM u) us) = [w] := by
        refine filter_eq_singleton_of_unique _ _ w hcount (fun x hx => ?_)
        rw [hm, beq_iff_eq]
        constructor
        · intro hxw
          by_contra hne
          have := hmax x hx hne
          omega
        · intro he; rw [he]
      simp only [Asset.identify]
      rw [hfil]
      rfl
  · intro u
    simp [blacklisted, Bool.or_eq_true, or_assoc]

/-- Closed witness for C1: a release with one matching archive asset and a
blacklisted package, where the archive uniquely attains the maximum. -/
theorem identify_unique_max_witness :
    ("tool-linux-amd64.tar.gz" : String) ∈
      ["tool-linux-amd64.tar.gz", "tool-linux-amd64.deb"] ∧
    Asset.identify osMatchCex archMatchCex (fun _ => true)
      ["tool-linux-amd64.tar.gz", "tool-linux-amd64.deb"]
      = some "tool-linux-amd64.tar.gz" := by
  refine ⟨by decide, (identify_unique_max osMatchCex archMatchCex (fun _ => true)
    ["tool-linux-amd64.tar.gz", "tool-linux-amd64.deb"]
    "tool-linux-amd64.tar.gz" (by decide) (by decide) ?_).1⟩
  decide

/-- C3 counterexample: under the linux/amd64 fingerprint and the default
match-everything user pattern, a blacklisted `.deb` candidate that matches
OS and architecture scores 3 while a non-blacklisted candidate with a lower
raw match count scores 2, so the blacklisted candidate wins the selection. -/
theorem blacklisted_candidate_wins_cex :
    Asset.identify osMatchCex archMatchCex (fun _ => true)
      ["tool-linux-amd64.deb", "README.md"] = some "tool-linux-amd64.deb" ∧
    blacklisted "tool-linux-amd64.deb" = true ∧
    blacklisted "README.md" = false ∧
    rawMatchCount osMatchCex archMatchCex "README.md" ≤
      rawMatchCount osMatchCex archMatchCex "tool-linux-amd64.deb" :=
  ⟨rfl, rfl, rfl, by decide⟩

/-- C3, amended: under the default match-everything user pattern, a
candidate ending in a blacklisted suffix never wins selection over a
non-blacklisted candidate whose raw OS/arch match count is equal or
higher (the blacklisted candidate scores at least one point lower, so it
can never be the unique maximum). -/
theorem blacklisted_never_beats_geq_count (osM archM : String → Bool)
    (urls : List String) (b c : String) (hb : b ∈ urls) (hc : c ∈ urls)
    (hbl : blacklisted b = true) (hcl : blacklisted c = false)
    (hcnt : rawMatchCount osM archM b ≤ rawMatchCount osM archM c) :
    Asset.identify osM archM (fun _ => true) urls ≠ some b := by
  intro hid
  cases urls with
  | nil => cases hb
  | cons u us =>
    simp only [Asset.identify] at hid
    by_cases hl : (((u :: us).filter (fun v =>
        assetScore osM archM (fun _ => true) v ==
          foldMax (assetScore osM archM (fun _ => true))
            (assetScore osM archM (fun _ => true) u) us))).length = 1
    · rw [if_pos hl] at hid
      have hbmem : b ∈ (u :: us).filter (fun v =>
          assetScore osM archM (fun _ => true) v ==
            foldMax (assetScore osM archM (fun _ => true))
              (assetScore osM archM (fun _ => true) u) us) := by
        cases hfil : (u :: us).filter (fun v =>
            assetScore osM archM (fun _ => true) v ==
              foldMax (assetScore osM archM (fun _ => true))
                (assetScore osM archM (fun _ => true) u) us) with
        | nil => rw [hfil] at hid; cases hid
        | cons x xs =>
          rw [hfil] at hid
          have hxb : x = b := by
            have : some x = some b := hid
            exact Option.some.inj this
          rw [hxb]
          exact List.mem_cons_self _ _
      have hbeq : assetScore osM archM (fun _ => true) b =
          foldMax (assetScore osM archM (fun _ => true))
            (assetScore osM archM (fun _ => true) u) us := by
        have := (List.mem_filter.mp hbmem).2
        exact beq_iff_eq.mp this
      have hcle : assetScore osM archM (fun _ => true) c ≤
          foldMax (assetScore osM archM (fun _ => true))
            (assetScore osM archM (fun _ => true) u) us := by
        cases hc with
        | head => exact le_foldMax _ us _
        | tail _ hmem => exact mem_le_foldMax _ us _ c hmem
      have h1 : assetScore osM archM (fun _ => true) b
          = rawMatchCount osM archM b + 1 := by
        simp [assetScore, rawMatchCount, hbl]
        ring
      have h2 : assetScore osM archM (fun _ => true) c
          = rawMatchCount osM archM c + 2 := by
        simp [assetScore, rawMatchCount, hcl]
      omega
    · rw [if_neg hl] at hid
      cases hid

/-- Closed witness for the amended C3 statement. -/
theorem blacklisted_never_beats_geq_count_witness :
    blacklisted "x.deb" = true ∧ blacklisted "y" = false ∧
    Asset.identify (fun _ => false) (fun _ => false) (fun _ => true)
      ["x.deb", "y"] ≠ some "x.deb" :=
  ⟨rfl, rfl,
    blacklisted_never_beats_geq_count (fun _ => false) (fun _ => false)
      ["x.deb", "y"] "x.deb" "y" (by decide) (by decide) rfl rfl (by decide)⟩

/-- C6 counterexample: a standalone file named `tool.v2` is moved under the
name `tool` (Python `stem` strips the last dot-suffix whatever it is, not a
trailing `.tar` token), and a flat archive named `data.tar.gz` is extracted
into a subdirectory named `d` (`rstrip('.tar')` strips trailing characters
from the set, not the literal suffix) — neither matches the claimed naming
under either reading of the archive's base filename. -/
theorem extract_naming_cex :
    Asset.extract false [] "tool.v2" = "tool" ∧
    specStripTar "tool.v2" = "tool.v2" ∧
    ("tool" : String) ≠ "tool.v2" ∧
    Asset.extract true ["bin", "doc"] "data.tar.gz" = "d" ∧
    specStripTar (pyStem "data.tar.gz") = "data" ∧
    specStripTar "data.tar.gz" = "data.tar.gz" ∧
    ("d" : String) ≠ "data" ∧ ("d" : String) ≠ "data.tar.gz" :=
  ⟨rfl, rfl, by decide, rfl, rfl, rfl, by decide, by decide⟩

/-- C6, amended: the standalone case moves the file under its filename with
the final dot-suffix removed (Python `stem`, not only a `.tar` token); the
flat-archive case extracts into a subdirectory named by `stem` followed by
`rstrip('.tar')`, a character-set strip — which does equal "strip the
`.tar.gz` ending" whenever the remaining base name does not itself end in
one of `.`, `t`, `a`, `r`. -/
theorem extract_naming_amended (entries : List String) (fname base : String)
    (c : Char) (cs : List Char)
    (hflat : commonpath entries = "")
    (hrev : base.data.reverse = c :: cs)
    (hc : (['.', 't', 'a', 'r'] : List Char).contains c = false) :
    Asset.extract false entries fname = pyStem fname ∧
    Asset.extract true entries fname
      = rstripChars ['.', 't', 'a', 'r'] (pyStem fname) ∧
    Asset.extract true entries (base ++ ".tar.gz") = base := by
  obtain ⟨bl⟩ := base
  have hstem : pyStem (String.mk bl ++ ".tar.gz")
      = String.mk (bl ++ ('.' :: 't' :: 'a' :: 'r' :: [])) := by
    unfold pyStem
    rw [String.data_append]
    rw [List.reverse_append]
    have h1 : (String.data ".tar.gz").reverse
        = ['z', 'g', '.', 'r', 'a', 't', '.'] := rfl
    rw [h1]
    have h2 : (['z', 'g', '.', 'r', 'a', 't', '.'] : List Char)
          ++ (String.mk bl).data.reverse
        = 'z' :: 'g' :: '.' ::
            ('r' :: 'a' :: 't' :: '.' :: (String.mk bl).data.reverse) := rfl
    rw [h2]
    have h3 (rest : List Char) :
        takeAfterLastDot ('z' :: 'g' :: '.' :: rest)
          = some (['z', 'g'], rest) := rfl
    rw [h3]
    simp only [List.isEmpty_cons, Bool.or_self, Bool.false_eq_true, if_false]
    congr 1
    simp [List.reverse_cons, List.append_assoc]
  refine ⟨rfl, ?_, ?_⟩
  · simp [Asset.extract, hflat]
  · simp only [Asset.extract, Bool.not_true, Bool.false_eq_true, if_false,
      hflat, if_true]
    rw [hstem]
    show String.mk (((bl ++ ['.', 't', 'a', 'r']).reverse.dropWhile
        (fun x => (['.', 't', 'a', 'r'] : List Char).contains x)).reverse)
      = String.mk bl
    rw [List.reverse_append]
    have h1 : (['.', 't', 'a', 'r'] : List Char).reverse
        = ['r', 'a', 't', '.'] := rfl
    rw [h1]
    have h2 : (['r', 'a', 't', '.'] : List Char) ++ bl.reverse
        = 'r' :: 'a' :: 't' :: '.' :: bl.reverse := rfl
    rw [h2]
    have hrev' : bl.reverse = c :: cs := hrev
    rw [hrev']
    rw [List.dropWhile_cons, if_pos (by decide), List.dropWhile_cons,
      if_pos (by decide), List.dropWhile_cons, if_pos (by decide),
      List.dropWhile_cons, if_pos (by decide), List.dropWhile_cons,
      if_neg (by simpa using hc)]
    rw [← hrev', List.reverse_reverse]

/-- Closed witness for the amended C6 statement. -/
theorem extract_naming_amended_witness :
    commonpath ["bin", "doc"] = "" ∧
    ("foo" : String).data.reverse = 'o' :: ['o', 'f'] ∧
    (['.', 't', 'a', 'r'] : List Char).contains 'o' = false ∧
    Asset.extract true ["bin", "doc"] ("foo" ++ ".tar.gz") = "foo" :=
  ⟨rfl, rfl, by decide,
    (extract_naming_amended ["bin", "doc"] "any" "foo" 'o' ['o', 'f'] rfl rfl
      (by decide)).2.2⟩

/-- Closed witness for the amended C4 statement: an install that fails at
checksum verification leaves the pre-existing record untouched. -/
theorem install_failure_preserves_record_witness :
    (installRun preCex urlsCex (some "https://h/tool") fetchCex hashCex
      remoteCex true false "tool" true newRecCex).2 = false ∧
    (installRun preCex urlsCex (some "https://h/tool") fetchCex hashCex
      remoteCex true false "tool" true newRecCex).1.record = preCex.record :=
  ⟨rfl,
    install_failure_preserves_record preCex urlsCex (some "https://h/tool")
      fetchCex hashCex remoteCex true false "tool" true newRecCex rfl⟩


